import Mathlib

/-!
Verification of the daily-digest aggregation pipeline.

The definitions below are a shallow embedding of the Go source of the
bot-viethoang repository.  Go strings are modelled as Lean `String`
(lists of characters); Go byte indexing (`s[:n]`) is modelled as
character indexing, which coincides with the source on ASCII data.
Go slices are Lean lists, Go `int` is `Int`, fallible calls return
`Except String`, and the `math/rand` shuffles (plus Go map iteration
order) are modelled by an explicit permutation parameter.
-/

set_option maxRecDepth 4000

/-! ## Go string primitives -/

/-- Characters accepted by Go `unicode.IsSpace` in the Latin-1 range. -/
def goIsSpace (c : Char) : Bool :=
  c = ' ' || c = '\t' || c = '\n' || c.toNat = 11 || c.toNat = 12 ||
    c = '\r' || c.toNat = 0x85 || c.toNat = 0xA0

/-- Go `s[:n]` (prefix of the first `n` characters; ASCII model of bytes). -/
def goSlice (s : String) (n : Nat) : String := ⟨s.data.take n⟩

/-- Go `strings.TrimSpace`. -/
def goTrimSpace (s : String) : String :=
  ⟨((s.data.dropWhile goIsSpace).reverse.dropWhile goIsSpace).reverse⟩

/-- Go `strings.ToLower` restricted to ASCII letters. -/
def goToLower (s : String) : String := ⟨s.data.map Char.toLower⟩

/-- Helper for `goLastIndexSpace`: fold tracking the last index of a space. -/
def lastSpaceIdxAux : List Char → Nat → Int → Int
  | [], _, acc => acc
  | c :: rest, i, acc =>
      lastSpaceIdxAux rest (i + 1) (if c = ' ' then Int.ofNat i else acc)

/-- Go `strings.LastIndex(s, " ")`: index of the last space, `-1` if none. -/
def goLastIndexSpace (s : String) : Int := lastSpaceIdxAux s.data 0 (-1)

/-- Helper for `goFields`: split characters into maximal non-space runs,
accumulating the current word reversed. -/
def goFieldsAux : List Char → List Char → List String
  | [], acc => if acc = [] then [] else [⟨acc.reverse⟩]
  | c :: rest, acc =>
      if goIsSpace c then
        if acc = [] then goFieldsAux rest []
        else ⟨acc.reverse⟩ :: goFieldsAux rest []
      else goFieldsAux rest (c :: acc)

/-- Go `strings.Fields`: whitespace-separated words, no empties. -/
def goFields (s : String) : List String := goFieldsAux s.data []

/-! ## Truncation functions

`trimForDiscord` and `summarizeText` are from
`internal/usecase/daily_digest.go`; `truncate` is from
`internal/adapter/discord/webhook.go`; `trimText` is from
`internal/adapter/writing/gemini_writer.go`.  Limits are modelled as
`Nat` (every limit appearing in the source is a positive literal). -/

/-- `trimForDiscord` from `daily_digest.go`. -/
def trimForDiscord (content : String) (limit : Nat) : String :=
  if content.length ≤ limit then content
  else
    let trimmed := goSlice content limit
    let lastSpace := goLastIndexSpace trimmed
    let trimmed := if lastSpace > 0 then goSlice trimmed lastSpace.toNat else trimmed
    trimmed ++ "..."

/-- `summarizeText` from `daily_digest.go`: collapses whitespace first. -/
def summarizeText (content : String) (limit : Nat) : String :=
  let clean := String.intercalate " " (goFields content)
  if clean = "" then ""
  else if clean.length ≤ limit then clean
  else
    let trimmed := goSlice clean limit
    let lastSpace := goLastIndexSpace trimmed
    let trimmed := if lastSpace > 0 then goSlice trimmed lastSpace.toNat else trimmed
    trimmed ++ "..."

/-- `truncate` from `webhook.go`.  In the source `value[:limit-3]` panics
for `limit < 3`; every call site uses `limit ≥ 256`, and the boundedness
theorem below assumes `3 ≤ limit` accordingly. -/
def truncate (value : String) (limit : Nat) : String :=
  if value.length ≤ limit then value
  else goTrimSpace (goSlice value (limit - 3)) ++ "..."

/-- `trimText` from `gemini_writer.go` (same shape as `truncate`). -/
def trimText (text : String) (m : Nat) : String :=
  if text.length ≤ m then text
  else goTrimSpace (goSlice text (m - 3)) ++ "..."

/-! ## Basic length lemmas for the string primitives -/

theorem strLen_append (s t : String) : (s ++ t).length = s.length + t.length :=
  String.length_append s t

theorem goSlice_length (s : String) (n : Nat) :
    (goSlice s n).length = min n s.length := by
  show (s.data.take n).length = min n s.data.length
  exact List.length_take n s.data

theorem length_dropWhile_le (p : Char → Bool) (l : List Char) :
    (l.dropWhile p).length ≤ l.length := by
  induction l with
  | nil => simp
  | cons a l ih =>
    by_cases h : p a
    · simp [List.dropWhile, h]
      exact Nat.le_succ_of_le ih
    · simp [List.dropWhile, h]

theorem goTrimSpace_length_le (s : String) : (goTrimSpace s).length ≤ s.length := by
  have h1 := length_dropWhile_le goIsSpace s.data
  have h2 := length_dropWhile_le goIsSpace (s.data.dropWhile goIsSpace).reverse
  show (((s.data.dropWhile goIsSpace).reverse.dropWhile goIsSpace).reverse).length ≤
    s.data.length
  simp only [List.length_reverse] at *
  omega

/-! ## Domain model (`internal/domain/model`) -/

/-- `model.Problem`. -/
structure Problem where
  ID : Int
  Title : String
  Slug : String
  Difficulty : String
  Link : String
  Content : String
  Topics : List String
deriving DecidableEq, Repr, Inhabited

/-- `model.Article`. -/
structure Article where
  Title : String
  Link : String
  Source : String
deriving DecidableEq, Repr, Inhabited

/-- `model.NotificationField`. -/
structure NotificationField where
  Name : String
  Value : String
  Inline : Bool
deriving DecidableEq, Repr, Inhabited

/-- `model.Notification`. -/
structure Notification where
  Title : String
  Description : String
  Fields : List NotificationField
deriving DecidableEq, Repr, Inhabited

/-! ## Digest Assembler (`internal/usecase/daily_digest.go`) -/

/-- `formatProblemDetail` from `daily_digest.go`. -/
def formatProblemDetail (p : Problem) : String :=
  let s := "**Link:** [" ++ p.Title ++ "](" ++ p.Link ++ ")\n"
  let s := s ++ "**Difficulty:** " ++ p.Difficulty ++ "\n"
  let s := if p.Topics.length > 0 then
      s ++ "**Topics:** " ++ String.intercalate ", " p.Topics ++ "\n"
    else s
  if p.Content ≠ "" then
    let summary := summarizeText p.Content 420
    if summary ≠ "" then s ++ "\n> _" ++ summary ++ "_" else s
  else s

/-- `formatPracticeQueue` from `daily_digest.go` (entries numbered from 1). -/
def formatPracticeQueue (problems : List Problem) : String :=
  let lines := problems.enum.map fun ip =>
    "**" ++ toString (ip.1 + 1) ++ ". [" ++ ip.2.Title ++ "](" ++ ip.2.Link ++
      ")**\n   Difficulty: *" ++ ip.2.Difficulty ++ "*"
  String.intercalate "\n\n" lines

/-- `formatArticleList` from `daily_digest.go` (blank source defaults to Curated). -/
def formatArticleList (articles : List Article) : String :=
  let lines := articles.enum.map fun ia =>
    let source := if ia.2.Source = "" then "Curated" else ia.2.Source
    "**" ++ toString (ia.1 + 1) ++ ".** [" ++ ia.2.Title ++ "](" ++ ia.2.Link ++
      ")\n   _from " ++ source ++ "_"
  String.intercalate "\n\n" lines

/-- `fallbackDescription` from `daily_digest.go` (`none` models a nil pointer). -/
def fallbackDescription : Option Problem → String
  | none => "Curated plan for algorithms practice today."
  | some daily =>
      let description := "**Daily Focus:** " ++ daily.Title ++ " (" ++
        daily.Difficulty ++ ")\n"
      if daily.Topics.length > 0 then
        description ++ "Chủ đề trọng tâm: " ++ String.intercalate ", " daily.Topics ++ "."
      else
        description ++ "Tập trung phân tích kỹ thuật lõi và cách tối ưu lời giải."

/-- `buildNotification` from `daily_digest.go`.  The initial value of the
Go `description` variable is dead (both branches overwrite it) and is
omitted. -/
def buildNotification (daily : Option Problem) (random : List Problem)
    (articles : List Article) (insight : String) : Notification :=
  let fields : List NotificationField := []
  let fields := match daily with
    | some d => fields ++ [⟨"Daily Challenge", formatProblemDetail d, false⟩]
    | none => fields
  let fields := if random.length > 0 then
      fields ++ [⟨"Practice Queue", formatPracticeQueue random, false⟩]
    else fields
  let fields := if articles.length > 0 then
      fields ++ [⟨"Algorithm Reading List", formatArticleList articles, false⟩]
    else fields
  let description := if insight ≠ "" then insight else fallbackDescription daily
  ⟨"Daily LeetCode & Algorithms Digest", description, fields⟩

/-! ## Daily digest orchestration (`internal/usecase/daily_digest.go`)

Provider calls are modelled by their results: `Except String α` stands
for the Go `(α, error)` pair returned by the port. -/

/-- The dedup loop of `fetchRandomProblems`: keeps the first problem per
slug, skipping slugs already in `seen`. -/
def dedupBySlug : List Problem → List String → List Problem
  | [], _ => []
  | p :: rest, seen =>
      if p.Slug ∈ seen then dedupBySlug rest seen
      else p :: dedupBySlug rest (p.Slug :: seen)

/-- `(*DailyDigest).fetchRandomProblems`: provider failure degrades to an
empty list; the featured slug seeds the seen-set only when non-empty. -/
def fetchRandomProblemsU (randomCount : Int)
    (res : Except String (List Problem)) (daily : Option Problem) : List Problem :=
  if randomCount ≤ 0 then []
  else
    match res with
    | .error _ => []
    | .ok problems =>
        let dailySlug := match daily with
          | none => ""
          | some p => p.Slug
        let seen := if dailySlug ≠ "" then [dailySlug] else []
        dedupBySlug problems seen

/-- `(*DailyDigest).fetchArticles`: absent provider, non-positive count or
provider failure all degrade to an empty list. -/
def fetchArticlesU (hasProvider : Bool) (articleCount : Int)
    (res : Except String (List Article)) : List Article :=
  if ¬hasProvider ∨ articleCount ≤ 0 then []
  else
    match res with
    | .error _ => []
    | .ok articles => articles

/-- `(*DailyDigest).composeInsight`: absent writer or writer failure
degrade to the empty insight; a successful insight is trimmed to 1900. -/
def composeInsightU (hasWriter : Bool) (res : Except String String) : String :=
  if ¬hasWriter then ""
  else
    match res with
    | .error _ => ""
    | .ok insight => trimForDiscord insight 1900

/-- Inputs of one `Run` invocation: the results each collaborator would
return, plus the notifier's verdict on the assembled notification. -/
structure RunInputs where
  daily : Except String (Option Problem)
  randomCount : Int
  randomRes : Except String (List Problem)
  hasArticles : Bool
  articleCount : Int
  articlesRes : Except String (List Article)
  hasWriter : Bool
  insightRes : Except String String
  sendErr : Notification → Option String

/-- Outcome of `Run`: the error it returns (if any) and the notifications
handed to the Notifier's `Send`. -/
structure RunOutcome where
  result : Option String
  sent : List Notification
deriving DecidableEq

/-- `(*DailyDigest).Run`: the featured fetch is mandatory, the three
optional steps degrade, then exactly one notification is sent. -/
def runDigest (inp : RunInputs) : RunOutcome :=
  match inp.daily with
  | .error e => ⟨some e, []⟩
  | .ok daily =>
      let random := fetchRandomProblemsU inp.randomCount inp.randomRes daily
      let arts := fetchArticlesU inp.hasArticles inp.articleCount inp.articlesRes
      let insight := composeInsightU inp.hasWriter inp.insightRes
      let notification := buildNotification daily random arts insight
      match inp.sendErr notification with
      | some e => ⟨some e, [notification]⟩
      | none => ⟨none, [notification]⟩

/-! ## Composite article provider (`internal/adapter/articles/composite.go`)

Each provider is modelled as a function from the requested count to the
result it would return, mirroring the Go call
`provider.GetRecommendedArticles(ctx, count-len(results))`. -/

/-- `canonicalArticleKey` from `composite.go`. -/
def canonicalArticleKey (article : Article) : String :=
  if article.Link ≠ "" then goToLower (goTrimSpace article.Link)
  else if article.Title ≠ "" then goToLower (goTrimSpace article.Title)
  else ""

/-- The inner item loop of `composite.go`: append items whose canonical
key is non-empty and unseen, stopping once `count` items are collected. -/
def compositeAdd (count : Int) :
    List Article → List Article → List String → List Article × List String
  | [], results, seen => (results, seen)
  | item :: rest, results, seen =>
      let key := canonicalArticleKey item
      if key = "" then compositeAdd count rest results seen
      else if key ∈ seen then compositeAdd count rest results seen
      else
        let results := results ++ [item]
        let seen := key :: seen
        if (results.length : Int) ≥ count then (results, seen)
        else compositeAdd count rest results seen

/-- The provider loop of `composite.go`: skip failing providers
(recording the first error), accumulate deduplicated items, stop once
`count` items are collected. -/
def compositeLoop (count : Int) :
    List (Int → Except String (List Article)) → List Article → List String →
      Option String → List Article × Option String
  | [], results, _, firstErr => (results, firstErr)
  | p :: rest, results, seen, firstErr =>
      if (results.length : Int) ≥ count then (results, firstErr)
      else
        match p (count - results.length) with
        | .error e =>
            compositeLoop count rest results seen
              (match firstErr with
                | none => some e
                | some e0 => some e0)
        | .ok items =>
            let rs := compositeAdd count items results seen
            compositeLoop count rest rs.1 rs.2 firstErr

/-- `(*CompositeProvider).GetRecommendedArticles`: returns the collected
items, or the first error when nothing was collected and some provider
failed. -/
def compositeGetRecommendedArticles (count : Int)
    (providers : List (Int → Except String (List Article))) :
    Except String (List Article) :=
  if count ≤ 0 then .ok []
  else
    let out := compositeLoop count providers [] [] none
    match out.2 with
    | some e => if out.1 = [] then .error e else .ok out.1
    | none => .ok out.1

/-! ## Medium two-tier provider (`internal/adapter/articles/medium.go`)

`fetchPrimary`/`fetchProxy` are pure I/O and are modelled by their
results.  Go's map iteration order plus `rand.Shuffle` are modelled by
the permutation parameter `sh`. -/

/-- The canonical link key used by the Medium dedup map. -/
def mediumKey (article : Article) : String := goToLower (goTrimSpace article.Link)

/-- The aggregate after the primary tier: its items on success, empty on
failure. -/
def aggregatedAfterPrimary (primary : Except String (List Article)) : List Article :=
  match primary with
  | .ok items => items
  | .error _ => []

/-- The Go condition guarding the proxy tier: the raw candidates from the
primary tier do not reach the requested count. -/
def proxyAttempted (count : Int) (primary : Except String (List Article)) : Bool :=
  ((aggregatedAfterPrimary primary).length : Int) < count

/-- The merged aggregate of both tiers, the proxy contributing only when
attempted and successful. -/
def mediumAggregated (count : Int)
    (primary proxy : Except String (List Article)) : List Article :=
  let agg1 := aggregatedAfterPrimary primary
  if (agg1.length : Int) < count then
    match proxy with
    | .ok items => agg1 ++ items
    | .error _ => agg1
  else agg1

/-- The `lastErr` variable after both tiers: a proxy error overwrites a
primary error (the source assigns `lastErr = err` in both branches). -/
def mediumLastErr (count : Int)
    (primary proxy : Except String (List Article)) : Option String :=
  let e1 : Option String := match primary with
    | .error e => some e
    | .ok _ => none
  if proxyAttempted count primary then
    match proxy with
    | .error e => some e
    | .ok _ => e1
  else e1

/-- The dedup map of `medium.go`: first occurrence per non-empty
normalized link. -/
def mediumDedup : List Article → List String → List Article
  | [], _ => []
  | a :: rest, seen =>
      let key := mediumKey a
      if key = "" then mediumDedup rest seen
      else if key ∈ seen then mediumDedup rest seen
      else a :: mediumDedup rest (key :: seen)

/-- The deduplicated unique list of `medium.go` for given tier results. -/
def mediumUnique (count : Int)
    (primary proxy : Except String (List Article)) : List Article :=
  mediumDedup (mediumAggregated count primary proxy) []

/-- `(*MediumProvider).GetRecommendedArticles`: primary tier, conditional
proxy tier, dedup by link, shuffle, then the first `min count available`
items. -/
def mediumGetRecommendedArticles (count : Int)
    (primary proxy : Except String (List Article))
    (sh : List Article → List Article) : Except String (List Article) :=
  if count ≤ 0 then .ok []
  else
    let aggregated := mediumAggregated count primary proxy
    if aggregated = [] then
      .error (match mediumLastErr count primary proxy with
        | some e => e
        | none => "no medium articles available")
    else
      let unique := mediumDedup aggregated []
      if unique = [] then .error "medium feed returned no usable articles"
      else
        let c := if count > (unique.length : Int) then (unique.length : Int) else count
        .ok ((sh unique).take c.toNat)

/-! ## LeetCode client (`internal/adapter/leetcode/client.go`)

`GetRandomProblems` is modelled over the decoded problemset payload;
the HTTP transport and JSON decoding are out of scope. -/

/-- One entry of the problemset payload (`stat_status_pairs`). -/
structure StatStatusPair where
  questionID : Int
  frontendQuestionID : Int
  questionTitle : String
  questionTitleSlug : String
  difficultyLevel : Int
  paidOnly : Bool
deriving DecidableEq, Repr

/-- `difficultyToString` from `client.go`. -/
def difficultyToString (level : Int) : String :=
  if level = 1 then "Easy"
  else if level = 2 then "Medium"
  else if level = 3 then "Hard"
  else "Unknown"

/-- `resolveLink` from `client.go`. -/
def resolveLink (slug fallback : String) : String :=
  if fallback ≠ "" then "https://leetcode.com" ++ fallback
  else "https://leetcode.com/problems/" ++ slug ++ "/"

/-- The `model.Problem` built from one problemset entry in
`GetRandomProblems` (Content and Topics keep their zero values). -/
def mkProblem (item : StatStatusPair) : Problem :=
  { ID := item.questionID
    Title := item.questionTitle
    Slug := item.questionTitleSlug
    Difficulty := difficultyToString item.difficultyLevel
    Link := resolveLink item.questionTitleSlug ""
    Content := ""
    Topics := [] }

/-- The candidate filter of `GetRandomProblems`: paid-only entries and
empty slugs are skipped. -/
def leetcodeCandidates (payload : List StatStatusPair) : List Problem :=
  (payload.filter (fun item => ¬item.paidOnly ∧ item.questionTitleSlug ≠ "")).map
    mkProblem

/-- `(*Client).GetRandomProblems` over a decoded payload, with the
shuffle modelled by `sh`. -/
def leetcodeGetRandomProblems (count : Int) (payload : List StatStatusPair)
    (sh : List Problem → List Problem) : Except String (List Problem) :=
  if count ≤ 0 then .ok []
  else
    let candidates := leetcodeCandidates payload
    if candidates = [] then .error "no problems available"
    else
      let c := if count > (candidates.length : Int) then (candidates.length : Int)
        else count
      .ok ((sh candidates).take c.toNat)

/-! ## Discord webhook (`internal/adapter/discord/webhook.go`) -/

/-- One field of the embed payload actually posted to Discord. -/
structure DiscordField where
  name : String
  value : String
  isInline : Bool
deriving DecidableEq, Repr, Inhabited

/-- `convertFields` from `webhook.go`: per-field truncation applied by the
Notifier itself. -/
def convertFields (fields : List NotificationField) : List DiscordField :=
  fields.map fun field => ⟨truncate field.Name 256, truncate field.Value 1024,
    field.Inline⟩

/-! ## Gemini writer (`internal/adapter/writing/gemini_writer.go`) -/

/-- `maxDiscordDescription` from `gemini_writer.go`. -/
def maxDiscordDescription : Nat := 2000

/-- `(*GeminiWriter).Compose` with the backend call modelled by its
result (`.error (e, status)` carries the HTTP status used by the model
fallback loop; `modelsToTry` holds a single model in the source, so one
iteration runs). -/
def composeWriter (apiKey mdl : String)
    (gen : Except (String × Int) String) : Except String String :=
  if apiKey = "" ∨ mdl = "" then .error "gemini writer not configured"
  else
    match gen with
    | .ok text => .ok (trimText text maxDiscordDescription)
    | .error e => .error e.1

/-! ## Shared truncation lemmas -/

theorem strNeEmpty_of_lengthPos (s : String) (h : 0 < s.length) : s ≠ "" := by
  intro he
  rw [he] at h
  simp [String.length] at h

theorem goSlice_length_le (s : String) (n : Nat) : (goSlice s n).length ≤ n := by
  rw [goSlice_length]
  exact min_le_left n s.length

theorem trimForDiscord_of_le (s : String) (L : Nat) (h : s.length ≤ L) :
    trimForDiscord s L = s := by
  unfold trimForDiscord
  rw [if_pos h]

theorem trimForDiscord_length_le (s : String) (L : Nat) :
    (trimForDiscord s L).length ≤ L + 3 := by
  unfold trimForDiscord
  split
  · omega
  · rw [strLen_append]
    have h3 : ("..." : String).length = 3 := by decide
    rw [h3]
    have h1 : (goSlice s L).length ≤ L := goSlice_length_le s L
    split
    · have h2 := goSlice_length_le (goSlice s L) (goLastIndexSpace (goSlice s L)).toNat
      have h4 : (goSlice (goSlice s L) (goLastIndexSpace (goSlice s L)).toNat).length ≤
          (goSlice s L).length := by
        rw [goSlice_length]
        exact min_le_right _ _
      omega
    · omega

theorem summarizeText_length_le (s : String) (L : Nat) :
    (summarizeText s L).length ≤ L + 3 := by
  unfold summarizeText
  simp only []
  split
  · simp [String.length]
  · split
    · omega
    · rw [strLen_append]
      have h3 : ("..." : String).length = 3 := by decide
      rw [h3]
      have h1 := goSlice_length_le (String.intercalate " " (goFields s)) L
      split
      · have h4 : (goSlice (goSlice (String.intercalate " " (goFields s)) L)
            (goLastIndexSpace (goSlice (String.intercalate " " (goFields s)) L)).toNat).length ≤
            (goSlice (String.intercalate " " (goFields s)) L).length := by
          rw [goSlice_length]
          exact min_le_right _ _
        omega
      · omega

theorem summarizeText_of_normalized (s : String) (L : Nat)
    (hn : String.intercalate " " (goFields s) = s) (h : s.length ≤ L) :
    summarizeText s L = s := by
  unfold summarizeText
  rw [hn]
  by_cases he : s = ""
  · rw [if_pos he, he]
  · rw [if_neg he, if_pos h]

theorem truncate_of_le (s : String) (L : Nat) (h : s.length ≤ L) :
    truncate s L = s := by
  unfold truncate
  rw [if_pos h]

theorem truncate_length_le (s : String) (L : Nat) (hL : 3 ≤ L) :
    (truncate s L).length ≤ L := by
  unfold truncate
  split
  · omega
  · rw [strLen_append]
    have h3 : ("..." : String).length = 3 := by decide
    rw [h3]
    have h1 := goTrimSpace_length_le (goSlice s (L - 3))
    have h2 := goSlice_length_le s (L - 3)
    omega

theorem trimText_of_le (s : String) (L : Nat) (h : s.length ≤ L) :
    trimText s L = s := by
  unfold trimText
  rw [if_pos h]

theorem trimText_length_le (s : String) (L : Nat) (hL : 3 ≤ L) :
    (trimText s L).length ≤ L := by
  unfold trimText
  split
  · omega
  · rw [strLen_append]
    have h3 : ("..." : String).length = 3 := by decide
    rw [h3]
    have h1 := goTrimSpace_length_le (goSlice s (L - 3))
    have h2 := goSlice_length_le s (L - 3)
    omega

/-! ## Claim C3 -/

/-- Claim C3 as stated is false: `summarizeText` is not idempotent on an
already-within-limit string (it first collapses internal whitespace), and
`trimForDiscord` can return a string longer than the limit (the `...`
marker is appended after cutting at the limit). -/
theorem C3_counterexample :
    ("a  b".length ≤ 10 ∧ summarizeText "a  b" 10 ≠ "a  b") ∧
    10 < (trimForDiscord "aaaaaaaaaab" 10).length := by decide

/-- Claim C3 (amended): `trimForDiscord` and `truncate` return
within-limit strings unchanged, and `summarizeText` does so for strings
that are already whitespace-collapsed; `truncate` (the Notifier's helper)
never exceeds the limit `L` (for `L ≥ 3`), while `trimForDiscord` and
`summarizeText` never exceed `L + 3` (limit plus continuation marker). -/
theorem C3_truncation_amended (s : String) (L : Nat) :
    (s.length ≤ L → trimForDiscord s L = s ∧ truncate s L = s) ∧
    (String.intercalate " " (goFields s) = s → s.length ≤ L → summarizeText s L = s) ∧
    (trimForDiscord s L).length ≤ L + 3 ∧
    (summarizeText s L).length ≤ L + 3 ∧
    (3 ≤ L → (truncate s L).length ≤ L) := by
  refine ⟨fun h => ⟨trimForDiscord_of_le s L h, truncate_of_le s L h⟩,
    fun hn h => summarizeText_of_normalized s L hn h,
    trimForDiscord_length_le s L,
    summarizeText_length_le s L,
    fun hL => truncate_length_le s L hL⟩

/-- Concrete instance of the amended truncation claim. -/
theorem C3_truncation_amended_witness :
    (trimForDiscord "ab cd" 10 = "ab cd" ∧ truncate "ab cd" 10 = "ab cd") ∧
    summarizeText "ab cd" 10 = "ab cd" ∧
    (truncate "aaaaaaaaaaaab" 10).length ≤ 10 :=
  ⟨(C3_truncation_amended "ab cd" 10).1 (by decide),
    (C3_truncation_amended "ab cd" 10).2.1 (by decide) (by decide),
    (C3_truncation_amended "aaaaaaaaaaaab" 10).2.2.2.2 (by decide)⟩

/-! ## Claim C7 -/

theorem fallbackDescription_ne_empty (daily : Option Problem) :
    fallbackDescription daily ≠ "" := by
  match daily with
  | none => decide
  | some p =>
      apply strNeEmpty_of_lengthPos
      unfold fallbackDescription
      simp only []
      have h17 : ("**Daily Focus:** " : String).length = 17 := by decide
      split
      · simp only [strLen_append]
        omega
      · simp only [strLen_append]
        omega

/-- Claim C7: the Digest Assembler is a total function and for every
input (including the empty Digest Run) the resulting Notification has a
non-empty title and a non-empty description. -/
theorem C7_assembler_total (daily : Option Problem) (random : List Problem)
    (articles : List Article) (insight : String) :
    (buildNotification daily random articles insight).Title ≠ "" ∧
    (buildNotification daily random articles insight).Description ≠ "" := by
  constructor
  · intro h
    have : (buildNotification daily random articles insight).Title =
        "Daily LeetCode & Algorithms Digest" := rfl
    rw [this] at h
    exact absurd h (by decide)
  · have hd : (buildNotification daily random articles insight).Description =
        if insight ≠ "" then insight else fallbackDescription daily := rfl
    rw [hd]
    by_cases hi : insight = ""
    · rw [if_neg (by simp [hi])]
      exact fallbackDescription_ne_empty daily
    · rw [if_pos hi]
      exact hi

/-! ## Claim C1 -/

/-- A problem whose title alone exceeds Discord's 1024-character field
value limit (the LeetCode API bounds no field the assembler interpolates). -/
def cexC1Problem : Problem :=
  ⟨1, ⟨List.replicate 1100 'a'⟩, "two-sum", "Easy",
    "https://leetcode.com/problems/two-sum/", "", []⟩

/-- The notification the Digest Assembler hands to the Notifier for that
problem. -/
def cexC1Notification : Notification := buildNotification (some cexC1Problem) [] [] ""

/-- Its single field. -/
def cexC1Field : NotificationField := cexC1Notification.Fields.headI

theorem cexC1Field_value : cexC1Field.Value =
    "**Link:** [" ++ cexC1Problem.Title ++ "](" ++ cexC1Problem.Link ++ ")\n" ++
      "**Difficulty:** " ++ cexC1Problem.Difficulty ++ "\n" := rfl

theorem cexC1Field_value_length : 1024 < cexC1Field.Value.length := by
  rw [cexC1Field_value]
  simp only [strLen_append]
  have htitle : cexC1Problem.Title.length = 1100 := by
    show (List.replicate 1100 'a').length = 1100
    exact List.length_replicate 1100 'a'
  rw [htitle]
  omega

/-- Claim C1 is false: `buildNotification` caps neither field values nor
the whole payload, so the Notification handed to the Notifier can have a
field value beyond the 1024-character per-field maximum, and the
Notifier's `truncate` does shorten it. -/
theorem C1_counterexample :
    cexC1Field ∈ cexC1Notification.Fields ∧
    1024 < cexC1Field.Value.length ∧
    truncate cexC1Field.Value 1024 ≠ cexC1Field.Value := by
  refine ⟨?_, cexC1Field_value_length, ?_⟩
  · rw [show cexC1Notification.Fields = [cexC1Field] from rfl]
    exact List.mem_singleton.mpr rfl
  · intro he
    have hb := truncate_length_le cexC1Field.Value 1024 (by omega)
    rw [he] at hb
    have := cexC1Field_value_length
    omega

/-- Claim C1 (amended): the Digest Assembler does not enforce the size
limits before handoff; instead the Notifier itself truncates the title
(256), the description (4096) and every field name (256) and value
(1024) while building the payload it posts, so the posted embed respects
the per-field maxima. -/
theorem C1_notifier_truncates (n : Notification) :
    (truncate n.Title 256).length ≤ 256 ∧
    (truncate n.Description 4096).length ≤ 4096 ∧
    ∀ f ∈ convertFields n.Fields,
      f.name.length ≤ 256 ∧ f.value.length ≤ 1024 := by
  refine ⟨truncate_length_le n.Title 256 (by omega),
    truncate_length_le n.Description 4096 (by omega), ?_⟩
  intro f hf
  unfold convertFields at hf
  obtain ⟨field, _, hfe⟩ := List.mem_map.mp hf
  rw [← hfe]
  exact ⟨truncate_length_le field.Name 256 (by omega),
    truncate_length_le field.Value 1024 (by omega)⟩

/-- The field the Notifier actually posts for the counterexample
notification. -/
def cexC1Sent : DiscordField := (convertFields cexC1Notification.Fields).headI

/-- Concrete instance of the amended claim: the very notification of the
counterexample is truncated into limits by the Notifier. -/
theorem C1_notifier_truncates_witness :
    cexC1Sent.name.length ≤ 256 ∧ cexC1Sent.value.length ≤ 1024 :=
  (C1_notifier_truncates cexC1Notification).2.2 cexC1Sent
    (by
      rw [show convertFields cexC1Notification.Fields = [cexC1Sent] from rfl]
      exact List.mem_singleton.mpr rfl)

/-! ## Claim C6 -/

theorem dropWhile_eq_self_of_head (p : Char → Bool) (l : List Char)
    (h : ∀ c, l.head? = some c → p c = false) : l.dropWhile p = l := by
  cases l with
  | nil => rfl
  | cons a t =>
      have ha := h a rfl
      simp [List.dropWhile, ha]

theorem goTrimSpace_eq_self (l : List Char)
    (h1 : ∀ c, l.head? = some c → goIsSpace c = false)
    (h2 : ∀ c, l.reverse.head? = some c → goIsSpace c = false) :
    goTrimSpace ⟨l⟩ = ⟨l⟩ := by
  show String.mk (((l.dropWhile goIsSpace).reverse.dropWhile goIsSpace).reverse) = ⟨l⟩
  rw [dropWhile_eq_self_of_head _ _ h1, dropWhile_eq_self_of_head _ _ h2,
    List.reverse_reverse]

/-- A narrative one character over the budget: `"ab "` then 1998 `c`s.
Its only whitespace sits at index 2, well inside the budget. -/
def cexC6Text : String := ⟨'a' :: 'b' :: ' ' :: List.replicate 1998 'c'⟩

/-- The prefix `trimText` actually keeps: the fixed cut at offset 1997. -/
def cexC6Pre : String := ⟨'a' :: 'b' :: ' ' :: List.replicate 1994 'c'⟩

theorem cexC6Text_length : cexC6Text.length = 2001 := by
  show ('a' :: 'b' :: ' ' :: List.replicate 1998 'c').length = 2001
  rw [List.length_cons, List.length_cons, List.length_cons, List.length_replicate]

theorem cexC6Pre_length : cexC6Pre.length = 1997 := by
  show ('a' :: 'b' :: ' ' :: List.replicate 1994 'c').length = 1997
  rw [List.length_cons, List.length_cons, List.length_cons, List.length_replicate]

theorem cexC6_slice : goSlice cexC6Text 1997 = cexC6Pre := by
  have h3 : (['a', 'b', ' '] : List Char).length = 3 := rfl
  show String.mk ((['a', 'b', ' '] ++ List.replicate 1998 'c').take 1997) = cexC6Pre
  rw [List.take_append_eq_append_take, h3]
  have ht1 : (['a', 'b', ' '] : List Char).take 1997 = ['a', 'b', ' '] := rfl
  have ht2 : (List.replicate 1998 'c').take (1997 - 3) = List.replicate 1994 'c' := by
    rw [List.take_replicate]
    congr 1
  rw [ht1, ht2]
  rfl

theorem cexC6_trimspace : goTrimSpace cexC6Pre = cexC6Pre := by
  show goTrimSpace ⟨'a' :: 'b' :: ' ' :: List.replicate 1994 'c'⟩ =
    ⟨'a' :: 'b' :: ' ' :: List.replicate 1994 'c'⟩
  apply goTrimSpace_eq_self
  · intro c hc
    rw [List.head?_cons] at hc
    cases hc
    decide
  · intro c hc
    have h1994 : List.replicate 1994 'c' = 'c' :: List.replicate 1993 'c' := rfl
    rw [List.reverse_cons, List.reverse_cons, List.reverse_cons, List.reverse_replicate,
      h1994, List.cons_append, List.cons_append, List.cons_append,
      List.head?_cons] at hc
    cases hc
    decide

theorem cexC6_trim : trimText cexC6Text 2000 = cexC6Pre ++ "..." := by
  unfold trimText
  rw [if_neg (by rw [cexC6Text_length]; omega)]
  have h : (2000 - 3 : Nat) = 1997 := by norm_num
  rw [h, cexC6_slice, cexC6_trimspace]

theorem cexC6_space_in_budget : cexC6Text.data.get? 2 = some ' ' := rfl

theorem cexC6_cut_char : cexC6Text.data.get? cexC6Pre.length = some 'c' := by
  rw [cexC6Pre_length]
  show (['a', 'b', ' '] ++ List.replicate 1998 'c').get? 1997 = some 'c'
  have h3 : (['a', 'b', ' '] : List Char).length = 3 := rfl
  rw [List.get?_eq_getElem?]
  rw [List.getElem?_append_right (by rw [h3]; omega), h3]
  rw [List.getElem?_replicate]
  rw [if_pos (by omega)]

/-- Claim C6 is false: for a narrative one character over the budget with
a whitespace well inside the budget, the Composer's truncation keeps the
fixed-offset prefix `budget - 3` and cuts in the middle of a word (the
character at the cut position is a letter, not whitespace), rather than
cutting at the whitespace boundary. -/
theorem C6_counterexample :
    composeWriter "key" "gemini-pro" (Except.ok cexC6Text) = .ok (cexC6Pre ++ "...") ∧
    cexC6Text.data.get? 2 = some ' ' ∧ goIsSpace ' ' = true ∧
    (2 : Nat) < maxDiscordDescription - 3 ∧
    cexC6Text.data.get? cexC6Pre.length = some 'c' ∧ goIsSpace 'c' = false := by
  refine ⟨?_, cexC6_space_in_budget, by decide, by decide, cexC6_cut_char, by decide⟩
  unfold composeWriter
  rw [if_neg (by simp)]
  show Except.ok (trimText cexC6Text maxDiscordDescription) = _
  rw [show maxDiscordDescription = 2000 from rfl, cexC6_trim]

/-- Claim C6 (amended): on backend success the Composer hands back the
narrative truncated to the 2000-character output budget; a within-budget
narrative passes through unchanged, and an over-budget narrative is cut
at the fixed offset `budget - 3` (with trailing whitespace trimmed) and
the `...` continuation marker appended — the cut is not aligned to a
whitespace boundary. -/
theorem C6_compose_truncates (apiKey mdl text : String)
    (h1 : apiKey ≠ "") (h2 : mdl ≠ "") :
    ∃ out, composeWriter apiKey mdl (Except.ok text) = .ok out ∧
      out.length ≤ maxDiscordDescription ∧
      (text.length ≤ maxDiscordDescription → out = text) ∧
      (maxDiscordDescription < text.length →
        out = goTrimSpace (goSlice text (maxDiscordDescription - 3)) ++ "...") := by
  refine ⟨trimText text maxDiscordDescription, ?_, ?_,
    fun h => trimText_of_le text _ h, ?_⟩
  · unfold composeWriter
    rw [if_neg (by simp [h1, h2])]
  · exact trimText_length_le text maxDiscordDescription (by decide)
  · intro h
    unfold trimText
    rw [if_neg (by omega)]

/-- Concrete instance of the amended Composer claim. -/
theorem C6_compose_truncates_witness :
    ∃ out, composeWriter "key" "gemini-pro" (Except.ok "hello world") = .ok out ∧
      out.length ≤ maxDiscordDescription ∧
      ("hello world".length ≤ maxDiscordDescription → out = "hello world") ∧
      (maxDiscordDescription < "hello world".length →
        out = goTrimSpace (goSlice "hello world" (maxDiscordDescription - 3)) ++ "...") :=
  C6_compose_truncates "key" "gemini-pro" "hello world" (by decide) (by decide)

/-! ## Claim C2 -/

/-- A failing article source. -/
def cexC2Boom : Int → Except String (List Article) := fun _ => .error "boom"

/-- A succeeding article source that returns no items. -/
def cexC2Empty : Int → Except String (List Article) := fun _ => .ok []

/-- Claim C2 is false: with the chain [failing source, succeeding source
with zero items], at least one source succeeds, yet the aggregate call
fails with the first error instead of returning an empty list. -/
theorem C2_counterexample :
    cexC2Empty 1 = .ok [] ∧
    compositeGetRecommendedArticles 1 [cexC2Boom, cexC2Empty] = .error "boom" := by
  constructor
  · rfl
  · rfl

theorem compositeLoop_all_fail (count : Int) (hc : 0 < count) (e : String) :
    ∀ ps seen, (∀ q ∈ ps, ∀ n, ∃ e', q n = Except.error e') →
      compositeLoop count ps [] seen (some e) = ([], some e) := by
  intro ps
  induction ps with
  | nil => intro seen _; rfl
  | cons q ps ih =>
      intro seen h
      obtain ⟨e', hq⟩ := h q (List.mem_cons_self q ps) (count - (([] : List Article).length : Int))
      unfold compositeLoop
      rw [if_neg (by simp; omega), hq]
      show compositeLoop count ps [] seen (some e) = ([], some e)
      exact ih seen (fun q hq n => h q (List.mem_cons_of_mem _ hq) n)

theorem compositeLoop_none_fail (count : Int) :
    ∀ ps results seen, (∀ q ∈ ps, ∀ n, ∃ l, q n = Except.ok l) →
      (compositeLoop count ps results seen none).2 = none := by
  intro ps
  induction ps with
  | nil => intro results seen _; rfl
  | cons q ps ih =>
      intro results seen h
      unfold compositeLoop
      split
      · rfl
      · obtain ⟨l, hq⟩ := h q (List.mem_cons_self q ps) (count - (results.length : Int))
        rw [hq]
        exact ih _ _ (fun q hq n => h q (List.mem_cons_of_mem _ hq) n)

theorem compositeLoop_keeps_err (count : Int) (e0 : String) :
    ∀ ps results seen, (compositeLoop count ps results seen (some e0)).2 = some e0 := by
  intro ps
  induction ps with
  | nil => intro results seen; rfl
  | cons q ps ih =>
      intro results seen
      unfold compositeLoop
      split
      · rfl
      · cases hq : q (count - (results.length : Int)) with
        | error e' => exact ih _ _
        | ok items => exact ih _ _

theorem compositeLoop_error_source (count : Int) :
    ∀ ps results seen res e,
      compositeLoop count ps results seen none = (res, some e) →
      ∃ q ∈ ps, ∃ n, q n = Except.error e := by
  intro ps
  induction ps with
  | nil =>
      intro results seen res e h
      exact absurd (congrArg Prod.snd h) (by simp [compositeLoop])
  | cons q ps ih =>
      intro results seen res e h
      unfold compositeLoop at h
      by_cases hg : (results.length : Int) ≥ count
      · rw [if_pos hg] at h
        exact absurd (congrArg Prod.snd h) (by simp)
      · rw [if_neg hg] at h
        cases hq : q (count - (results.length : Int)) with
        | error e' =>
            rw [hq] at h
            have hsnd : (compositeLoop count ps results seen (some e')).2 = some e' :=
              compositeLoop_keeps_err count e' ps results seen
            have hsnd2 : (compositeLoop count ps results seen (some e')).2 = some e :=
              congrArg Prod.snd h
            have he : e = e' := by
              rw [hsnd] at hsnd2
              exact ((Option.some.injEq _ _).mp hsnd2).symm
            exact ⟨q, List.mem_cons_self q ps, count - (results.length : Int), by rw [hq, he]⟩
        | ok items =>
            rw [hq] at h
            obtain ⟨q', hq', n, hn⟩ := ih _ _ _ _ h
            exact ⟨q', List.mem_cons_of_mem _ hq', n, hn⟩

/-- Specification of a source that contributes nothing usable when asked
for `count` articles: it either fails outright or succeeds returning only
articles whose canonical key is empty (which the collection loop skips). -/
def sourceUnusable (count : Int) (p : Int → Except String (List Article)) : Prop :=
  (∃ e, p count = Except.error e) ∨
  (∃ items, p count = Except.ok items ∧ ∀ a ∈ items, canonicalArticleKey a = "")

/-- Specification of "the first error observed" when the sources are
tried in order, each asked for the full count — which is exactly how the
loop consults them for as long as nothing has been collected. -/
def firstErrorAt (count : Int) :
    List (Int → Except String (List Article)) → Option String
  | [] => none
  | p :: ps =>
      match p count with
      | .error e => some e
      | .ok _ => firstErrorAt count ps

theorem compositeAdd_all_empty (count : Int) :
    ∀ items results seen, (∀ a ∈ items, canonicalArticleKey a = "") →
      compositeAdd count items results seen = (results, seen) := by
  intro items
  induction items with
  | nil => intro results seen _; rfl
  | cons item rest ih =>
      intro results seen h
      unfold compositeAdd
      simp only []
      rw [if_pos (h item (List.mem_cons_self _ _))]
      exact ih results seen (fun a ha => h a (List.mem_cons_of_mem _ ha))

theorem compositeAdd_length_mono (count : Int) :
    ∀ items results seen,
      results.length ≤ (compositeAdd count items results seen).1.length := by
  intro items
  induction items with
  | nil => intro results seen; exact Nat.le_refl _
  | cons item rest ih =>
      intro results seen
      unfold compositeAdd
      simp only []
      split
      · exact ih results seen
      · split
        · exact ih results seen
        · have hl : (results ++ [item]).length = results.length + 1 := by simp
          split
          · rw [hl]; omega
          · calc results.length ≤ (results ++ [item]).length := by rw [hl]; omega
              _ ≤ _ := ih _ _

theorem compositeAdd_nil (count : Int) :
    ∀ items, (compositeAdd count items [] ([] : List String)).1 = [] →
      ∀ a ∈ items, canonicalArticleKey a = "" := by
  intro items
  induction items with
  | nil => intro _ a ha; exact absurd ha (List.not_mem_nil a)
  | cons item rest ih =>
      intro h a ha
      unfold compositeAdd at h
      simp only [] at h
      by_cases hkey : canonicalArticleKey item = ""
      · rw [if_pos hkey] at h
        rcases List.mem_cons.mp ha with ha | ha
        · rw [ha]; exact hkey
        · exact ih h a ha
      · rw [if_neg hkey, if_neg (List.not_mem_nil _)] at h
        exfalso
        by_cases hge : (((([] : List Article) ++ [item]).length : Int) ≥ count)
        · rw [if_pos hge] at h
          simp at h
        · rw [if_neg hge] at h
          have hmono := compositeAdd_length_mono count rest
            (([] : List Article) ++ [item]) (canonicalArticleKey item :: [])
          rw [h] at hmono
          simp at hmono

theorem compositeLoop_length_mono (count : Int) :
    ∀ ps results seen fe,
      results.length ≤ (compositeLoop count ps results seen fe).1.length := by
  intro ps
  induction ps with
  | nil => intro results seen fe; exact Nat.le_refl _
  | cons p ps ih =>
      intro results seen fe
      unfold compositeLoop
      split
      · exact Nat.le_refl _
      · cases hp : p (count - (results.length : Int)) with
        | error e => exact ih _ _ _
        | ok items =>
            exact le_trans (compositeAdd_length_mono count items results seen) (ih _ _ _)

theorem compositeLoop_unusable_err (count : Int) (hc : 0 < count) (e0 : String) :
    ∀ ps seen, (∀ p ∈ ps, sourceUnusable count p) →
      compositeLoop count ps [] seen (some e0) = ([], some e0) := by
  intro ps
  induction ps with
  | nil => intro seen _; rfl
  | cons p ps ih =>
      intro seen h
      unfold compositeLoop
      rw [if_neg (by simp; omega)]
      rw [show (count - (([] : List Article).length : Int)) = count by simp]
      rcases h p (List.mem_cons_self p ps) with ⟨e', hp⟩ | ⟨items, hp, hall⟩
      · rw [hp]
        show compositeLoop count ps [] seen (some e0) = ([], some e0)
        exact ih seen (fun q hq => h q (List.mem_cons_of_mem _ hq))
      · rw [hp]
        show compositeLoop count ps (compositeAdd count items [] seen).1
          (compositeAdd count items [] seen).2 (some e0) = ([], some e0)
        rw [compositeAdd_all_empty count items [] seen hall]
        exact ih seen (fun q hq => h q (List.mem_cons_of_mem _ hq))

theorem compositeLoop_unusable_none (count : Int) (hc : 0 < count) :
    ∀ ps seen, (∀ p ∈ ps, sourceUnusable count p) →
      compositeLoop count ps [] seen none = ([], firstErrorAt count ps) := by
  intro ps
  induction ps with
  | nil => intro seen _; rfl
  | cons p ps ih =>
      intro seen h
      unfold compositeLoop firstErrorAt
      rw [if_neg (by simp; omega)]
      rw [show (count - (([] : List Article).length : Int)) = count by simp]
      rcases h p (List.mem_cons_self p ps) with ⟨e', hp⟩ | ⟨items, hp, hall⟩
      · rw [hp]
        show compositeLoop count ps [] seen (some e') = ([], some e')
        exact compositeLoop_unusable_err count hc e' ps seen
          (fun q hq => h q (List.mem_cons_of_mem _ hq))
      · rw [hp]
        show compositeLoop count ps (compositeAdd count items [] seen).1
          (compositeAdd count items [] seen).2 none = ([], firstErrorAt count ps)
        rw [compositeAdd_all_empty count items [] seen hall]
        exact ih seen (fun q hq => h q (List.mem_cons_of_mem _ hq))

theorem compositeLoop_empty_unusable (count : Int) (hc : 0 < count) :
    ∀ ps fe res2, compositeLoop count ps [] [] fe = ([], res2) →
      ∀ p ∈ ps, sourceUnusable count p := by
  intro ps
  induction ps with
  | nil => intro fe res2 _ p hp; exact absurd hp (List.not_mem_nil p)
  | cons p ps ih =>
      intro fe res2 h q hq
      unfold compositeLoop at h
      rw [if_neg (by simp; omega)] at h
      rw [show (count - (([] : List Article).length : Int)) = count by simp] at h
      cases hp : p count with
      | error e' =>
          rw [hp] at h
          rcases List.mem_cons.mp hq with hq | hq
          · rw [hq]
            exact Or.inl ⟨e', hp⟩
          · exact ih _ _ h q hq
      | ok items =>
          rw [hp] at h
          have h2 : compositeLoop count ps (compositeAdd count items [] []).1
              (compositeAdd count items [] []).2 fe = ([], res2) := h
          by_cases hall : ∀ a ∈ items, canonicalArticleKey a = ""
          · rw [compositeAdd_all_empty count items [] [] hall] at h2
            rcases List.mem_cons.mp hq with hq | hq
            · rw [hq]
              exact Or.inr ⟨items, hp, hall⟩
            · exact ih _ _ h2 q hq
          · exfalso
            have hmono := compositeLoop_length_mono count ps
              (compositeAdd count items [] []).1 (compositeAdd count items [] []).2 fe
            rw [h2] at hmono
            have hnil : (compositeAdd count items [] []).1 = [] := by
              simpa using hmono
            exact hall (compositeAdd_nil count items hnil)

/-- Claim C2 (amended): for a positive target count, the aggregate call
fails exactly when every source in the chain is unusable (it fails
outright, or succeeds contributing only articles with an empty canonical
key, so zero usable articles are collected) and at least one source
actually fails — and then it fails with the first error observed in
chain order.  In particular a source that succeeds while contributing no
usable item does not prevent the failure (this is where the original
claim breaks), and if no source fails the call succeeds, possibly with
an empty list. -/
theorem C2_composite_error_handling (count : Int) (hc : 0 < count)
    (ps : List (Int → Except String (List Article))) :
    (∀ e, compositeGetRecommendedArticles count ps = .error e ↔
      ((∀ p ∈ ps, sourceUnusable count p) ∧ firstErrorAt count ps = some e)) ∧
    ((∀ q ∈ ps, ∀ n, ∃ l, q n = Except.ok l) →
      ∃ l, compositeGetRecommendedArticles count ps = .ok l) := by
  constructor
  · intro e
    constructor
    · intro h
      unfold compositeGetRecommendedArticles at h
      rw [if_neg (by omega)] at h
      cases hE : compositeLoop count ps [] [] none with
      | mk res fe =>
          rw [hE] at h
          cases fe with
          | none =>
              have h2 : Except.ok res = (Except.error e : Except String (List Article)) := h
              exact absurd h2 (by simp)
          | some e' =>
              have h2 : (if res = [] then Except.error e' else Except.ok res) =
                  Except.error e := h
              by_cases hres : res = []
              · rw [if_pos hres] at h2
                injection h2 with he
                rw [hres] at hE
                have hall := compositeLoop_empty_unusable count hc ps none (some e') hE
                have hcomp := compositeLoop_unusable_none count hc ps [] hall
                rw [hE] at hcomp
                have hfe : some e' = firstErrorAt count ps := congrArg Prod.snd hcomp
                exact ⟨hall, by rw [← hfe, he]⟩
              · rw [if_neg hres] at h2
                exact absurd h2 (by simp)
    · rintro ⟨hall, hfe⟩
      unfold compositeGetRecommendedArticles
      rw [if_neg (by omega)]
      rw [compositeLoop_unusable_none count hc ps [] hall, hfe]
      rfl
  · intro h
    unfold compositeGetRecommendedArticles
    rw [if_neg (by omega)]
    have hsnd := compositeLoop_none_fail count ps [] [] h
    cases hE : compositeLoop count ps [] [] none with
    | mk res fe =>
        rw [hE] at hsnd
        simp only at hsnd
        subst hsnd
        exact ⟨res, rfl⟩

/-- Concrete instance of the amended aggregate-failure claim, exercised
on the mixed chain the amendment is about: a succeeding zero-item source
followed by a failing source makes the call fail with that (first)
error, while the same zero-item source alone yields a success. -/
theorem C2_composite_error_handling_witness :
    compositeGetRecommendedArticles 1 [cexC2Empty, cexC2Boom] = .error "boom" ∧
    ∃ l, compositeGetRecommendedArticles 1 [cexC2Empty] = .ok l := by
  constructor
  · apply ((C2_composite_error_handling 1 (by omega) [cexC2Empty, cexC2Boom]).1 "boom").mpr
    refine ⟨?_, rfl⟩
    intro p hp
    rcases List.mem_cons.mp hp with hp | hp
    · rw [hp]
      exact Or.inr ⟨[], rfl, fun a ha => absurd ha (List.not_mem_nil a)⟩
    · rw [List.mem_singleton.mp hp]
      exact Or.inl ⟨"boom", rfl⟩
  · exact (C2_composite_error_handling 1 (by omega) [cexC2Empty]).2
      (fun q hq n => by
        rw [List.mem_singleton.mp hq]
        exact ⟨[], rfl⟩)

/-! ## Claim C8 -/

theorem compositeAdd_length (count : Int) :
    ∀ items results seen, (results.length : Int) < count →
      ((compositeAdd count items results seen).1.length : Int) ≤ count := by
  intro items
  induction items with
  | nil => intro results seen h; exact le_of_lt h
  | cons item rest ih =>
      intro results seen h
      unfold compositeAdd
      simp only []
      split
      · exact ih results seen h
      · split
        · exact ih results seen h
        · have hl : (results ++ [item]).length = results.length + 1 := by simp
          split
          · next hge =>
              show ((results ++ [item]).length : Int) ≤ count
              rw [hl]
              push_cast
              omega
          · next hlt =>
              apply ih
              rw [hl] at hlt ⊢
              push_cast at hlt ⊢
              omega

theorem compositeAdd_inv (count : Int) :
    ∀ items results seen,
      (∀ a ∈ results, canonicalArticleKey a ≠ "" ∧ canonicalArticleKey a ∈ seen) →
      results.Pairwise (fun a b => canonicalArticleKey a ≠ canonicalArticleKey b) →
      ((∀ a ∈ (compositeAdd count items results seen).1,
          canonicalArticleKey a ≠ "" ∧
          canonicalArticleKey a ∈ (compositeAdd count items results seen).2) ∧
        (compositeAdd count items results seen).1.Pairwise
          (fun a b => canonicalArticleKey a ≠ canonicalArticleKey b)) := by
  intro items
  induction items with
  | nil => intro results seen hin hpw; exact ⟨hin, hpw⟩
  | cons item rest ih =>
      intro results seen hin hpw
      unfold compositeAdd
      simp only []
      split
      · exact ih results seen hin hpw
      · next hkey =>
          split
          · exact ih results seen hin hpw
          · next hseen =>
              have hin' : ∀ a ∈ results ++ [item],
                  canonicalArticleKey a ≠ "" ∧
                  canonicalArticleKey a ∈ canonicalArticleKey item :: seen := by
                intro a ha
                rcases List.mem_append.mp ha with ha | ha
                · obtain ⟨h1, h2⟩ := hin a ha
                  exact ⟨h1, List.mem_cons_of_mem _ h2⟩
                · rw [List.mem_singleton.mp ha]
                  exact ⟨hkey, List.mem_cons_self _ _⟩
              have hpw' : (results ++ [item]).Pairwise
                  (fun a b => canonicalArticleKey a ≠ canonicalArticleKey b) := by
                rw [List.pairwise_append]
                refine ⟨hpw, List.pairwise_singleton _ _, ?_⟩
                intro a ha b hb
                rw [List.mem_singleton.mp hb]
                intro hab
                exact hseen (hab ▸ (hin a ha).2)
              split
              · exact ⟨hin', hpw'⟩
              · exact ih _ _ hin' hpw'

theorem compositeLoop_length (count : Int) :
    ∀ ps results seen firstErr, (results.length : Int) ≤ count →
      ((compositeLoop count ps results seen firstErr).1.length : Int) ≤ count := by
  intro ps
  induction ps with
  | nil => intro results seen firstErr h; exact h
  | cons p ps ih =>
      intro results seen firstErr h
      unfold compositeLoop
      split
      · exact h
      · next hlt =>
          cases hq : p (count - (results.length : Int)) with
          | error e => exact ih _ _ _ h
          | ok items =>
              exact ih _ _ _ (compositeAdd_length count items results seen (by omega))

theorem compositeLoop_inv (count : Int) :
    ∀ ps results seen firstErr,
      (∀ a ∈ results, canonicalArticleKey a ≠ "" ∧ canonicalArticleKey a ∈ seen) →
      results.Pairwise (fun a b => canonicalArticleKey a ≠ canonicalArticleKey b) →
      (compositeLoop count ps results seen firstErr).1.Pairwise
        (fun a b => canonicalArticleKey a ≠ canonicalArticleKey b) := by
  intro ps
  induction ps with
  | nil => intro results seen firstErr _ hpw; exact hpw
  | cons p ps ih =>
      intro results seen firstErr hin hpw
      unfold compositeLoop
      split
      · exact hpw
      · cases hq : p (count - (results.length : Int)) with
        | error e => exact ih _ _ _ hin hpw
        | ok items =>
            obtain ⟨hin', hpw'⟩ := compositeAdd_inv count items results seen hin hpw
            exact ih _ _ _ hin' hpw'

/-- Claim C8: for every N ≥ 0 and every sequence of source behaviours, a
successful aggregate call returns at most N articles, no two of which
share a canonical key (lower-cased trimmed link, else lower-cased trimmed
title when the link is absent). -/
theorem C8_composite_bounded_dedup (count : Int) (hc : 0 ≤ count)
    (providers : List (Int → Except String (List Article)))
    (l : List Article)
    (hok : compositeGetRecommendedArticles count providers = .ok l) :
    (l.length : Int) ≤ count ∧
    l.Pairwise (fun a b => canonicalArticleKey a ≠ canonicalArticleKey b) := by
  unfold compositeGetRecommendedArticles at hok
  by_cases h0 : count ≤ 0
  · rw [if_pos h0] at hok
    cases hok
    simp
    omega
  · rw [if_neg h0] at hok
    have hlen := compositeLoop_length count providers [] [] none (by simp; omega)
    have hpw := compositeLoop_inv count providers [] [] none (by simp) (by simp)
    cases hE : compositeLoop count providers [] [] none with
    | mk res fe =>
        rw [hE] at hok hlen hpw
        simp only at hlen hpw
        cases fe with
        | none =>
            have hok' : Except.ok res = Except.ok l := hok
            cases hok'
            exact ⟨hlen, hpw⟩
        | some e =>
            have hok' : (if res = [] then Except.error e else Except.ok res) =
              Except.ok l := hok
            by_cases hres : res = []
            · rw [if_pos hres] at hok'
              exact absurd hok' (by simp)
            · rw [if_neg hres] at hok'
              cases hok'
              exact ⟨hlen, hpw⟩

/-- Two articles with the same canonical key and one fresh article. -/
def cexC8Providers : List (Int → Except String (List Article)) :=
  [fun _ => .ok [⟨"T1", "L1", "S"⟩, ⟨"t1", " l1 ", "S"⟩, ⟨"T2", "L2", "S"⟩]]

/-- Concrete instance of the aggregator bound/dedup claim: the duplicate
link (case/whitespace-insensitively equal) is dropped and the bound holds. -/
theorem C8_composite_bounded_dedup_witness :
    compositeGetRecommendedArticles 2 cexC8Providers =
      .ok [⟨"T1", "L1", "S"⟩, ⟨"T2", "L2", "S"⟩] ∧
    (((⟨"T1", "L1", "S"⟩ : Article) :: [⟨"T2", "L2", "S"⟩]).length : Int) ≤ 2 ∧
    ((⟨"T1", "L1", "S"⟩ : Article) :: [⟨"T2", "L2", "S"⟩]).Pairwise
      (fun a b => canonicalArticleKey a ≠ canonicalArticleKey b) := by
  refine ⟨by rfl, ?_⟩
  exact C8_composite_bounded_dedup 2 (by omega) cexC8Providers _ (by rfl)

/-! ## Claim C4 -/

/-- A problem whose slug is empty (as the aggregation's provider
interface permits). -/
def cexC4Problem : Problem := ⟨9, "Em", "", "Easy", "link", "", []⟩

/-- Claim C4 is false at the empty excluded slug: when the featured
problem's slug is empty, the seen-set is not seeded with it, so the
aggregation returns a problem whose slug equals the excluded slug. -/
theorem C4_counterexample :
    (some cexC4Problem).elim "" Problem.Slug = "" ∧
    cexC4Problem ∈ fetchRandomProblemsU 1 (Except.ok [cexC4Problem]) (some cexC4Problem) ∧
    cexC4Problem.Slug = "" := by
  refine ⟨rfl, ?_, rfl⟩
  show cexC4Problem ∈ [cexC4Problem]
  exact List.mem_singleton.mpr rfl

theorem dedupBySlug_inv : ∀ (l : List Problem) (seen : List String),
    (∀ p ∈ dedupBySlug l seen, p.Slug ∉ seen) ∧
    (dedupBySlug l seen).Pairwise (fun p q => p.Slug ≠ q.Slug) := by
  intro l
  induction l with
  | nil => intro seen; exact ⟨fun p hp => absurd hp (List.not_mem_nil p), List.Pairwise.nil⟩
  | cons p rest ih =>
      intro seen
      unfold dedupBySlug
      split
      · exact ih seen
      · next hseen =>
          obtain ⟨ihmem, ihpw⟩ := ih (p.Slug :: seen)
          constructor
          · intro q hq
            rcases List.mem_cons.mp hq with hq | hq
            · rw [hq]; exact hseen
            · exact fun hmem => ihmem q hq (List.mem_cons_of_mem _ hmem)
          · rw [List.pairwise_cons]
            refine ⟨?_, ihpw⟩
            intro q hq hpq
            exact ihmem q hq (hpq ▸ List.mem_cons_self _ _)

/-- Claim C4 (amended): for every N and provider result, whenever the
featured problem's slug is non-empty the aggregation never returns a
problem carrying that slug; and (unconditionally) the returned list never
contains two problems with the same slug. -/
theorem C4_random_problems_dedup (count : Int)
    (res : Except String (List Problem)) (daily : Option Problem) :
    (∀ p ∈ fetchRandomProblemsU count res daily,
      ∀ d, daily = some d → d.Slug ≠ "" → p.Slug ≠ d.Slug) ∧
    (fetchRandomProblemsU count res daily).Pairwise (fun p q => p.Slug ≠ q.Slug) := by
  unfold fetchRandomProblemsU
  split
  · exact ⟨fun p hp => absurd hp (List.not_mem_nil p), List.Pairwise.nil⟩
  · cases res with
    | error e =>
        exact ⟨fun p hp => absurd hp (List.not_mem_nil p), List.Pairwise.nil⟩
    | ok problems =>
        simp only []
        constructor
        · intro p hp d hd hslug
          subst hd
          simp only [] at hp
          rw [if_pos hslug] at hp
          intro hps
          exact (dedupBySlug_inv problems [d.Slug]).1 p hp
            (hps ▸ List.mem_singleton.mpr rfl)
        · exact (dedupBySlug_inv problems _).2

/-- The two-sum scenario from the spec. -/
def probTwoSum : Problem :=
  ⟨1, "Two Sum", "two-sum", "Easy", "https://leetcode.com/problems/two-sum/", "", []⟩

/-- Supplementary candidate three-sum. -/
def probThreeSum : Problem :=
  ⟨15, "3Sum", "three-sum", "Medium", "https://leetcode.com/problems/three-sum/", "", []⟩

/-- Supplementary candidate four-sum. -/
def probFourSum : Problem :=
  ⟨18, "4Sum", "four-sum", "Medium", "https://leetcode.com/problems/four-sum/", "", []⟩

/-- Concrete instance of the amended claim on the spec's own scenario:
featured two-sum, provider returns [two-sum, three-sum, four-sum], the
aggregation returns [three-sum, four-sum]. -/
theorem C4_random_problems_dedup_witness :
    fetchRandomProblemsU 2 (Except.ok [probTwoSum, probThreeSum, probFourSum])
      (some probTwoSum) = [probThreeSum, probFourSum] ∧
    (∀ p ∈ fetchRandomProblemsU 2 (Except.ok [probTwoSum, probThreeSum, probFourSum])
        (some probTwoSum),
      ∀ d, some probTwoSum = some d → d.Slug ≠ "" → p.Slug ≠ d.Slug) ∧
    (fetchRandomProblemsU 2 (Except.ok [probTwoSum, probThreeSum, probFourSum])
      (some probTwoSum)).Pairwise (fun p q => p.Slug ≠ q.Slug) :=
  ⟨by decide, C4_random_problems_dedup 2 (Except.ok [probTwoSum, probThreeSum, probFourSum])
    (some probTwoSum)⟩

/-! ## Claim C9 -/

/-- Claim C9: a failed featured fetch aborts the run with that error and
nothing is handed to the Notifier; once the featured fetch succeeds,
exactly one notification is built and handed to `Send`, whatever the
optional steps returned, and the run succeeds when delivery does. -/
theorem C9_featured_fatal_optionals_degrade (inp : RunInputs) :
    (∀ e, inp.daily = Except.error e → runDigest inp = ⟨some e, []⟩) ∧
    (∀ d, inp.daily = Except.ok d → ∃ n, (runDigest inp).sent = [n] ∧
      (inp.sendErr n = none → (runDigest inp).result = none) ∧
      (∀ e, inp.sendErr n = some e → (runDigest inp).result = some e)) := by
  constructor
  · intro e he
    unfold runDigest
    rw [he]
  · intro d hd
    unfold runDigest
    rw [hd]
    simp only []
    refine ⟨buildNotification d (fetchRandomProblemsU inp.randomCount inp.randomRes d)
      (fetchArticlesU inp.hasArticles inp.articleCount inp.articlesRes)
      (composeInsightU inp.hasWriter inp.insightRes), ?_, ?_, ?_⟩
    · cases hs : inp.sendErr (buildNotification d
          (fetchRandomProblemsU inp.randomCount inp.randomRes d)
          (fetchArticlesU inp.hasArticles inp.articleCount inp.articlesRes)
          (composeInsightU inp.hasWriter inp.insightRes)) with
      | none => rfl
      | some e => rfl
    · intro hs
      rw [hs]
    · intro e hs
      rw [hs]

/-- A run whose featured fetch fails. -/
def cexC9Fatal : RunInputs :=
  ⟨Except.error "daily down", 2, Except.ok [], true, 2, Except.ok [], true,
    Except.ok "", fun _ => none⟩

/-- A run whose featured fetch succeeds while every optional step fails. -/
def cexC9Degraded : RunInputs :=
  ⟨Except.ok (some probTwoSum), 2, Except.error "random down", true, 2,
    Except.error "articles down", true, Except.error "gemini down", fun _ => none⟩

/-- Concrete instance: the fatal case aborts without sending, and the
all-optionals-failed case still sends exactly one notification and
succeeds. -/
theorem C9_featured_fatal_optionals_degrade_witness :
    runDigest cexC9Fatal = ⟨some "daily down", []⟩ ∧
    ∃ n, (runDigest cexC9Degraded).sent = [n] ∧
      (cexC9Degraded.sendErr n = none → (runDigest cexC9Degraded).result = none) ∧
      (∀ e, cexC9Degraded.sendErr n = some e →
        (runDigest cexC9Degraded).result = some e) :=
  ⟨(C9_featured_fatal_optionals_degrade cexC9Fatal).1 "daily down" rfl,
    (C9_featured_fatal_optionals_degrade cexC9Degraded).2 (some probTwoSum) rfl⟩

/-! ## Claim C10 -/

/-- Claim C10: whenever the problemset fetch succeeds, every problem the
random source returns was built from a payload entry that is not
paid-only and has a non-empty slug; in particular no returned problem has
an empty slug. -/
theorem C10_random_filters_paid_and_empty (count : Int)
    (payload : List StatStatusPair) (sh : List Problem → List Problem)
    (hsh : ∀ L, (sh L).Perm L) (l : List Problem)
    (hok : leetcodeGetRandomProblems count payload sh = .ok l) :
    ∀ p ∈ l, p.Slug ≠ "" ∧
      ∃ item ∈ payload, ¬item.paidOnly ∧ item.questionTitleSlug ≠ "" ∧
        p = mkProblem item := by
  unfold leetcodeGetRandomProblems at hok
  by_cases h0 : count ≤ 0
  · rw [if_pos h0] at hok
    cases hok
    intro p hp
    exact absurd hp (List.not_mem_nil p)
  · rw [if_neg h0] at hok
    by_cases hcand : leetcodeCandidates payload = []
    · rw [if_pos hcand] at hok
      exact absurd hok (by simp)
    · rw [if_neg hcand] at hok
      simp only [] at hok
      cases hok
      intro p hp
      have hp1 : p ∈ sh (leetcodeCandidates payload) :=
        List.mem_of_mem_take hp
      have hp2 : p ∈ leetcodeCandidates payload :=
        (hsh (leetcodeCandidates payload)).mem_iff.mp hp1
      unfold leetcodeCandidates at hp2
      obtain ⟨item, hitem, hpe⟩ := List.mem_map.mp hp2
      have hfil := List.mem_filter.mp hitem
      have hcond := of_decide_eq_true hfil.2
      refine ⟨?_, item, hfil.1, hcond.1, hcond.2, hpe.symm⟩
      rw [← hpe]
      exact hcond.2

/-- Concrete instance: a paid-only entry and an empty-slug entry are both
filtered out; the returned problem has a non-empty slug. -/
theorem C10_random_filters_paid_and_empty_witness :
    (mkProblem ⟨1, 1, "T", "t-slug", 1, false⟩).Slug ≠ "" ∧
      ∃ item ∈ [(⟨1, 1, "T", "t-slug", 1, false⟩ : StatStatusPair),
          ⟨2, 2, "P", "p-slug", 2, true⟩, ⟨3, 3, "Q", "", 3, false⟩],
        ¬item.paidOnly ∧ item.questionTitleSlug ≠ "" ∧
          mkProblem ⟨1, 1, "T", "t-slug", 1, false⟩ = mkProblem item :=
  C10_random_filters_paid_and_empty 2
    [⟨1, 1, "T", "t-slug", 1, false⟩, ⟨2, 2, "P", "p-slug", 2, true⟩,
      ⟨3, 3, "Q", "", 3, false⟩]
    id (fun L => List.Perm.refl L) [mkProblem ⟨1, 1, "T", "t-slug", 1, false⟩]
    (by rfl) (mkProblem ⟨1, 1, "T", "t-slug", 1, false⟩)
    (List.mem_singleton.mpr rfl)

/-! ## Claim C5 -/

theorem mediumDedup_length_le : ∀ (l : List Article) (seen : List String),
    (mediumDedup l seen).length ≤ l.length := by
  intro l
  induction l with
  | nil => intro seen; exact Nat.le_refl 0
  | cons a rest ih =>
      intro seen
      unfold mediumDedup
      simp only []
      split
      · exact Nat.le_succ_of_le (ih seen)
      · split
        · exact Nat.le_succ_of_le (ih seen)
        · rw [List.length_cons, List.length_cons]
          exact Nat.succ_le_succ (ih _)

theorem mediumDedup_inv : ∀ (l : List Article) (seen : List String),
    (∀ a ∈ mediumDedup l seen, mediumKey a ∉ seen) ∧
    (mediumDedup l seen).Pairwise (fun a b => mediumKey a ≠ mediumKey b) := by
  intro l
  induction l with
  | nil =>
      intro seen
      exact ⟨fun a ha => absurd ha (List.not_mem_nil a), List.Pairwise.nil⟩
  | cons a rest ih =>
      intro seen
      unfold mediumDedup
      simp only []
      split
      · exact ih seen
      · split
        · exact ih seen
        · next hseen =>
            obtain ⟨ihmem, ihpw⟩ := ih (mediumKey a :: seen)
            constructor
            · intro b hb
              rcases List.mem_cons.mp hb with hb | hb
              · rw [hb]; exact hseen
              · exact fun hmem => ihmem b hb (List.mem_cons_of_mem _ hmem)
            · rw [List.pairwise_cons]
              refine ⟨?_, ihpw⟩
              intro b hb hab
              exact ihmem b hb (hab ▸ List.mem_cons_self _ _)

/-- Claim C5: the proxy tier is attempted only if the primary tier did
not yield enough candidates to satisfy the requested count (in
particular, not enough after deduplication); and every successful result
is a subset of the link-deduplicated merge of both tiers with exactly
`min count available` pairwise-distinct entries. -/
theorem C5_medium_two_tier (count : Int) (hc : 0 < count)
    (primary proxy : Except String (List Article))
    (sh : List Article → List Article) (hsh : ∀ L, (sh L).Perm L) :
    (proxyAttempted count primary = true →
      ((mediumDedup (aggregatedAfterPrimary primary) []).length : Int) < count) ∧
    (∀ l, mediumGetRecommendedArticles count primary proxy sh = .ok l →
      (l.length : Int) = min count ((mediumUnique count primary proxy).length : Int) ∧
      (∀ a ∈ l, a ∈ mediumUnique count primary proxy) ∧
      l.Pairwise (fun a b => mediumKey a ≠ mediumKey b)) := by
  constructor
  · intro hatt
    have hraw : ((aggregatedAfterPrimary primary).length : Int) < count :=
      of_decide_eq_true hatt
    have hded := mediumDedup_length_le (aggregatedAfterPrimary primary) []
    omega
  · intro l hok
    unfold mediumGetRecommendedArticles at hok
    rw [if_neg (by omega)] at hok
    simp only [] at hok
    by_cases hA : mediumAggregated count primary proxy = []
    · rw [if_pos hA] at hok
      exact absurd hok (by simp)
    · rw [if_neg hA] at hok
      by_cases hU : mediumDedup (mediumAggregated count primary proxy) [] = []
      · rw [if_pos hU] at hok
        exact absurd hok (by simp)
      · rw [if_neg hU] at hok
        have hok' : Except.ok ((sh (mediumDedup (mediumAggregated count primary proxy) [])).take
            (if count > ((mediumDedup (mediumAggregated count primary proxy) []).length : Int)
              then ((mediumDedup (mediumAggregated count primary proxy) []).length : Int)
              else count).toNat) = Except.ok l := hok
        have hl : l = (sh (mediumDedup (mediumAggregated count primary proxy) [])).take
            (if count > ((mediumDedup (mediumAggregated count primary proxy) []).length : Int)
              then ((mediumDedup (mediumAggregated count primary proxy) []).length : Int)
              else count).toNat := by
          cases hok'
          rfl
        have hperm := hsh (mediumDedup (mediumAggregated count primary proxy) [])
        have hlensh := hperm.length_eq
        obtain ⟨hUmem, hUpw⟩ := mediumDedup_inv (mediumAggregated count primary proxy) []
        refine ⟨?_, ?_, ?_⟩
        · have hUdef : mediumDedup (mediumAggregated count primary proxy) [] =
              mediumUnique count primary proxy := rfl
          rw [hl, List.length_take, hlensh, hUdef]
          by_cases hgt : count > ((mediumUnique count primary proxy).length : Int)
          · rw [if_pos hgt]
            rw [min_eq_right (le_of_lt hgt)]
            have ht : (((mediumUnique count primary proxy).length : Int)).toNat =
                (mediumUnique count primary proxy).length := by omega
            rw [ht, Nat.min_self]
          · rw [if_neg hgt]
            have h1 : count.toNat ⊓ (mediumUnique count primary proxy).length =
                count.toNat := by
              apply Nat.min_eq_left
              omega
            have h2 : count ⊓ ((mediumUnique count primary proxy).length : Int) = count :=
              min_eq_left (by omega)
            rw [h1, h2]
            omega
        · intro a ha
          rw [hl] at ha
          exact hperm.mem_iff.mp (List.mem_of_mem_take ha)
        · rw [hl]
          apply List.Pairwise.sublist (List.take_sublist _ _)
          exact (hperm.pairwise_iff (fun h he => h he.symm)).mpr hUpw

/-- Concrete instance of the two-tier claim: one primary article, proxy
not needed, identity shuffle. -/
theorem C5_medium_two_tier_witness :
    ((((mediumUnique 1 (Except.ok [⟨"A", "la", "Medium"⟩])
        (Except.ok [⟨"B", "lb", "Medium"⟩])).length : Int) = 1) ∧
      ∀ l, mediumGetRecommendedArticles 1 (Except.ok [⟨"A", "la", "Medium"⟩])
          (Except.ok [⟨"B", "lb", "Medium"⟩]) id = .ok l →
        (l.length : Int) = min 1 ((mediumUnique 1 (Except.ok [⟨"A", "la", "Medium"⟩])
          (Except.ok [⟨"B", "lb", "Medium"⟩])).length : Int) ∧
        (∀ a ∈ l, a ∈ mediumUnique 1 (Except.ok [⟨"A", "la", "Medium"⟩])
          (Except.ok [⟨"B", "lb", "Medium"⟩])) ∧
        l.Pairwise (fun a b => mediumKey a ≠ mediumKey b)) ∧
    proxyAttempted 1 (Except.error "primary down") = true ∧
    ((mediumDedup (aggregatedAfterPrimary (Except.error "primary down")) []).length : Int) < 1 :=
  ⟨⟨by decide,
    (C5_medium_two_tier 1 (by omega) (Except.ok [⟨"A", "la", "Medium"⟩])
      (Except.ok [⟨"B", "lb", "Medium"⟩]) id (fun L => List.Perm.refl L)).2⟩,
    by decide,
    (C5_medium_two_tier 1 (by omega) (Except.error "primary down")
      (Except.ok [⟨"B", "lb", "Medium"⟩]) id (fun L => List.Perm.refl L)).1 (by decide)⟩
